import Mathlib

/-!
Shallow embedding of the rehearsal-splitter program (splitter.go) and proofs
about its segment-derivation core, configuration merge, and setlist rename
step.  Times and durations are modelled as exact rationals; the Go program
uses float64, and all arithmetic here stays in the range where field
arithmetic mirrors it.
-/

/-- Model of the source's `segment` struct: start and end time of a clip.
The source field `end` is a Lean keyword, so it is named `endTime` here. -/
structure Segment where
  start : ℚ
  endTime : ℚ
deriving DecidableEq, Repr

/-- Model of the source's `Config` struct.  The source field `OutputPrefix`
is named `OutputPrefixName` here; all other field names match the source. -/
structure Config where
  InputFile : String
  MinSilenceDur : ℚ
  SilenceThreshold : String
  MinSongLength : ℚ
  OutputPrefixName : String
  OutputDir : String
  UploadToDrive : Bool
  RcloneRemote : String
  DriveSubfolder : String
  SetlistFile : String
deriving DecidableEq, Repr

/-- The source's `defaultConfig` value (script defaults). -/
def defaultConfig : Config :=
  { InputFile := "practice_session.mp4"
    MinSilenceDur := 2
    SilenceThreshold := "-12dB"
    MinSongLength := 200
    OutputPrefixName := "Song"
    OutputDir := "output"
    UploadToDrive := false
    RcloneRemote := "gdrive:"
    DriveSubfolder := "SplitSongs"
    SetlistFile := "" }

/-- A configuration whose minimum song length is zero (the value the spec
says means "export everything"); used at several concrete inputs below. -/
def cfgZero : Config := { defaultConfig with MinSongLength := 0 }

/-- The leading-segment step of `calculateNonSilentSegments`: the candidate
runs from `lastEndTime = 0.0` to the first silence's start and is appended
when its length is at least `cfg.MinSongLength`. -/
def leadingSegments (cfg : Config) (first : Segment) : List Segment :=
  if cfg.MinSongLength ≤ first.start - 0 then [Segment.mk 0 first.start] else []

/-- The middle-segment loop of `calculateNonSilentSegments`: for each
adjacent pair of silences the candidate runs from the earlier silence's end
to the later silence's start and is appended when its length is at least
`cfg.MinSongLength`. -/
def middleSegments (cfg : Config) : List Segment → List Segment
  | s₁ :: s₂ :: rest =>
    (if cfg.MinSongLength ≤ s₂.start - s₁.endTime
      then [Segment.mk s₁.endTime s₂.start] else [])
      ++ middleSegments cfg (s₂ :: rest)
  | _ => []

/-- The trailing-segment step of `calculateNonSilentSegments`: the candidate
runs from the last silence's end to the total duration and is appended only
when its length is strictly greater than `0.1` and at least
`cfg.MinSongLength`. -/
def trailingSegments (cfg : Config) (lastSilenceEnd totalDuration : ℚ) :
    List Segment :=
  if (0.1 : ℚ) < totalDuration - lastSilenceEnd ∧
      cfg.MinSongLength ≤ totalDuration - lastSilenceEnd
  then [Segment.mk lastSilenceEnd totalDuration] else []

/-- Model of the source's `calculateNonSilentSegments`: on an empty silence
list it returns the empty list; otherwise it appends, in order, the leading
candidate, the middle candidates, and the trailing candidate, each filtered
as in the source. -/
def calculateNonSilentSegments (silences : List Segment) (totalDuration : ℚ)
    (cfg : Config) : List Segment :=
  match silences with
  | [] => []
  | first :: rest =>
    leadingSegments cfg first
      ++ middleSegments cfg (first :: rest)
      ++ trailingSegments cfg
          (((first :: rest).getLast (List.cons_ne_nil first rest)).endTime)
          totalDuration

/-- Steps 8 and 9 of the source's `main`: derive the song segments and then
apply the caller-level "no silence detected" policy, which replaces the
segment list by the single synthetic segment `[0, totalDuration)` exactly
when no silence was found and the whole file is at least one song long. -/
def mainSongSegments (silences : List Segment) (totalDuration : ℚ)
    (cfg : Config) : List Segment :=
  let songSegments := calculateNonSilentSegments silences totalDuration cfg
  if silences.length = 0 then
    if cfg.MinSongLength ≤ totalDuration then [Segment.mk 0 totalDuration]
    else songSegments
  else songSegments

/-- Spec-side formulation: the list of middle candidates, one for each
adjacent pair of silences, before the length filter is applied. -/
def middleCandidates (silences : List Segment) : List Segment :=
  (silences.zip silences.tail).map (fun p => Segment.mk p.1.endTime p.2.start)

/-- The ordering relation on segments used to state "ordered ascending,
non-overlapping": each segment ends no later than the next one starts. -/
def segLE (a b : Segment) : Prop := a.endTime ≤ b.start

instance : DecidableRel segLE :=
  fun a b => inferInstanceAs (Decidable (a.endTime ≤ b.start))

/-- The command-line flags of `defineFlags`, with Go's
`flag.Visit`-reported "explicitly set on the command line" presence encoded
as `Option`: `some v` means the flag was given with value `v`, `none` means
it was not given.  The `-prefix` flag is named `prefixFlag` here. -/
structure CliFlags where
  input : Option String
  duration : Option ℚ
  threshold : Option String
  minsonglength : Option ℚ
  prefixFlag : Option String
  output : Option String
  upload : Option Bool
  remote : Option String
  subfolder : Option String
  setlist : Option String
deriving DecidableEq, Repr

/-- A `CliFlags` value with no flag explicitly set. -/
def noFlags : CliFlags :=
  { input := none, duration := none, threshold := none, minsonglength := none
    prefixFlag := none, output := none, upload := none, remote := none
    subfolder := none, setlist := none }

/-- Step 2 of `loadConfig`: merge the parsed config file onto the current
config.  Each source `if` guards one distinct field, keeping the file's
value only when it differs from the Go zero value of the field's type
(`""` for strings, `0.0` for float64, `false` for bool). -/
def applyFileConfig (cfg fileConfig : Config) : Config :=
  { InputFile :=
      if fileConfig.InputFile ≠ "" then fileConfig.InputFile
      else cfg.InputFile
    MinSilenceDur :=
      if fileConfig.MinSilenceDur ≠ 0 then fileConfig.MinSilenceDur
      else cfg.MinSilenceDur
    SilenceThreshold :=
      if fileConfig.SilenceThreshold ≠ "" then fileConfig.SilenceThreshold
      else cfg.SilenceThreshold
    MinSongLength :=
      if fileConfig.MinSongLength ≠ 0 then fileConfig.MinSongLength
      else cfg.MinSongLength
    OutputPrefixName :=
      if fileConfig.OutputPrefixName ≠ "" then fileConfig.OutputPrefixName
      else cfg.OutputPrefixName
    OutputDir :=
      if fileConfig.OutputDir ≠ "" then fileConfig.OutputDir
      else cfg.OutputDir
    UploadToDrive :=
      if fileConfig.UploadToDrive then fileConfig.UploadToDrive
      else cfg.UploadToDrive
    RcloneRemote :=
      if fileConfig.RcloneRemote ≠ "" then fileConfig.RcloneRemote
      else cfg.RcloneRemote
    DriveSubfolder :=
      if fileConfig.DriveSubfolder ≠ "" then fileConfig.DriveSubfolder
      else cfg.DriveSubfolder
    SetlistFile :=
      if fileConfig.SetlistFile ≠ "" then fileConfig.SetlistFile
      else cfg.SetlistFile }

/-- Step 3 of `loadConfig`: each flag that the user explicitly set
overrides its own field of the current config. -/
def applyCliFlags (cfg : Config) (flags : CliFlags) : Config :=
  { InputFile := flags.input.getD cfg.InputFile
    MinSilenceDur := flags.duration.getD cfg.MinSilenceDur
    SilenceThreshold := flags.threshold.getD cfg.SilenceThreshold
    MinSongLength := flags.minsonglength.getD cfg.MinSongLength
    OutputPrefixName := flags.prefixFlag.getD cfg.OutputPrefixName
    OutputDir := flags.output.getD cfg.OutputDir
    UploadToDrive := flags.upload.getD cfg.UploadToDrive
    RcloneRemote := flags.remote.getD cfg.RcloneRemote
    DriveSubfolder := flags.subfolder.getD cfg.DriveSubfolder
    SetlistFile := flags.setlist.getD cfg.SetlistFile }

/-- Model of the source's `loadConfig`: start from the script defaults,
merge the config file when it was read and parsed (`some fileConfig`;
`none` models a missing or unparsable file, which falls back to the
defaults), then apply the explicitly set CLI flags. -/
def loadConfig (fileConfig : Option Config) (flags : CliFlags) : Config :=
  let cfg := defaultConfig
  let cfg := match fileConfig with
    | some fc => applyFileConfig cfg fc
    | none => cfg
  applyCliFlags cfg flags

/-- The character class of the sanitizer's regex `\w` (ASCII word
character: letter, digit or underscore). -/
def isWordChar (c : Char) : Bool := c.isAlphanum || c = '_'

/-- The character class of the sanitizer's regex `\s`
(ASCII whitespace: tab, newline, form feed, carriage return, space). -/
def isGoSpace (c : Char) : Bool :=
  c = '\t' || c = '\n' || c = '\x0c' || c = '\r' || c = ' '

/-- Model of the source's `sanitizeFilename`: trim surrounding whitespace,
delete every character the regex `[^\w\s\-]` matches (keeping word
characters, whitespace and hyphens), replace each space by an underscore,
and fall back to a placeholder when the result is empty. -/
def sanitizeFilename (name : String) : String :=
  let name := name.trim
  let name := String.mk
    (name.toList.filter (fun c => isWordChar c || isGoSpace c || c = '-'))
  let name := String.mk
    (name.toList.map (fun c => if c = ' ' then '_' else c))
  if name = "" then "Untitled_Song" else name

/-- Formulation of the sanitizer following the specification text: strip
characters outside letters, digits, whitespace, hyphen and underscore. -/
def sanitizeFilenameSpec (name : String) : String :=
  let name := name.trim
  let name := String.mk (name.toList.filter
    (fun c => c.isAlpha || c.isDigit || isGoSpace c || c = '-' || c = '_'))
  let name := String.mk
    (name.toList.map (fun c => if c = ' ' then '_' else c))
  if name = "" then "Untitled_Song" else name

/-- Model of Go's `filepath.Ext` for slash-separated paths: the suffix of
the last path element starting at its final dot, or `""` when the last
element has no dot. -/
def filepathExt (path : String) : String :=
  let base := (path.splitOn "/").getLastD path
  let parts := base.splitOn "."
  if parts.length ≤ 1 then "" else "." ++ parts.getLastD ""

/-- Model of Go's `filepath.Dir` for already-clean slash-separated paths:
everything before the last slash, or `"."` when there is no slash. -/
def filepathDir (path : String) : String :=
  let parts := path.splitOn "/"
  if parts.length ≤ 1 then "."
  else String.intercalate "/" parts.dropLast

/-- Model of Go's `filepath.Join` on two already-clean components. -/
def filepathJoin (dir name : String) : String :=
  if dir = "" then name else dir ++ "/" ++ name

/-- Go's `fmt.Sprintf "%02d"`: decimal, left-padded with `0` to width 2. -/
def pad2 (n : ℕ) : String :=
  if n < 10 then "0" ++ toString n else toString n

/-- The new file name built in `renameFilesFromSetlist` for the file at
0-based index `i`: `fmt.Sprintf("%02d - %s%s", i+1, sanitized, ext)`. -/
def newFileName (i : ℕ) (title ext : String) : String :=
  pad2 (i + 1) ++ " - " ++ sanitizeFilename title ++ ext

/-- One iteration of the rename loop for the file at index `i`: when the
setlist still has a title at `i`, rename the file (an `os.Rename` failure,
modelled by the oracle `renameOk i = false`, leaves the old name and does
not stop the loop); once titles run out the loop breaks, so every later
file keeps its name. -/
def renameOne (songTitles : List String) (renameOk : ℕ → Bool) (i : ℕ)
    (oldFilePath : String) : String :=
  match songTitles[i]? with
  | none => oldFilePath
  | some title =>
    if renameOk i then
      filepathJoin (filepathDir oldFilePath)
        (newFileName i title (filepathExt oldFilePath))
    else oldFilePath

/-- The rename loop of `renameFilesFromSetlist`, indexed from `i`. -/
def renameLoop (songTitles : List String) (renameOk : ℕ → Bool) :
    ℕ → List String → List String
  | _, [] => []
  | i, oldFilePath :: restFiles =>
    renameOne songTitles renameOk i oldFilePath
      :: renameLoop songTitles renameOk (i + 1) restFiles

/-- Model of the file-system effect of the source's
`renameFilesFromSetlist` on the exported files' names: entry `i` of the
result is the final name of exported file `i`.  The titles list is the
setlist file's non-blank lines, and `renameOk` tells whether the
`os.Rename` call for index `i` succeeds. -/
def renameFilesFromSetlist (exportedFiles songTitles : List String)
    (renameOk : ℕ → Bool) : List String :=
  renameLoop songTitles renameOk 0 exportedFiles

-- Sanity checks: the spec's scenarios B, C, D, E for the Segment Deriver.
example :
    calculateNonSilentSegments [Segment.mk 180 190] 300
      { defaultConfig with MinSongLength := 10 }
      = [Segment.mk 0 180, Segment.mk 190 300] := by
  norm_num [calculateNonSilentSegments, leadingSegments, middleSegments,
    trailingSegments]

example :
    calculateNonSilentSegments [Segment.mk 0 10, Segment.mk 200 210] 300
      { defaultConfig with MinSongLength := 10 }
      = [Segment.mk 10 200, Segment.mk 210 300] := by
  norm_num [calculateNonSilentSegments, leadingSegments, middleSegments,
    trailingSegments, List.getLast]

example :
    calculateNonSilentSegments
      [Segment.mk 100 110, Segment.mk 200 210] 300
      { defaultConfig with MinSongLength := 10 }
      = [Segment.mk 0 100, Segment.mk 110 200, Segment.mk 210 300] := by
  norm_num [calculateNonSilentSegments, leadingSegments, middleSegments,
    trailingSegments, List.getLast]

example :
    calculateNonSilentSegments [Segment.mk 40 50, Segment.mk 100 110] 120
      { defaultConfig with MinSongLength := 50 }
      = [Segment.mk 50 100] := by
  norm_num [calculateNonSilentSegments, leadingSegments, middleSegments,
    trailingSegments, List.getLast]

/-! ### Helper lemmas about the segment deriver -/

theorem calculateNonSilentSegments_cons (cfg : Config) (totalDuration : ℚ)
    (first : Segment) (rest : List Segment) :
    calculateNonSilentSegments (first :: rest) totalDuration cfg =
      leadingSegments cfg first ++ middleSegments cfg (first :: rest)
        ++ trailingSegments cfg
            (((first :: rest).getLast (List.cons_ne_nil first rest)).endTime)
            totalDuration := rfl

theorem mem_leadingSegments {cfg : Config} {first seg : Segment}
    (h : seg ∈ leadingSegments cfg first) :
    seg = Segment.mk 0 first.start ∧
      cfg.MinSongLength ≤ first.start - 0 := by
  unfold leadingSegments at h
  split at h
  · simp only [List.mem_singleton] at h
    exact ⟨h, by assumption⟩
  · simp at h

theorem mem_trailingSegments {cfg : Config} {lastSilenceEnd totalDuration : ℚ}
    {seg : Segment} (h : seg ∈ trailingSegments cfg lastSilenceEnd totalDuration) :
    seg = Segment.mk lastSilenceEnd totalDuration ∧
      (0.1 : ℚ) < totalDuration - lastSilenceEnd ∧
      cfg.MinSongLength ≤ totalDuration - lastSilenceEnd := by
  unfold trailingSegments at h
  split at h
  · simp only [List.mem_singleton] at h
    rename_i hcond
    exact ⟨h, hcond.1, hcond.2⟩
  · simp at h

theorem middleSegments_eq_filter (cfg : Config) :
    ∀ l : List Segment,
      middleSegments cfg l = (middleCandidates l).filter
        (fun c => decide (cfg.MinSongLength ≤ c.endTime - c.start))
  | [] => rfl
  | [_] => rfl
  | s₁ :: s₂ :: rest => by
    have ih := middleSegments_eq_filter cfg (s₂ :: rest)
    have hunf : middleSegments cfg (s₁ :: s₂ :: rest) =
        (if cfg.MinSongLength ≤ s₂.start - s₁.endTime
          then [Segment.mk s₁.endTime s₂.start] else [])
          ++ middleSegments cfg (s₂ :: rest) := rfl
    have hcand : middleCandidates (s₁ :: s₂ :: rest) =
        Segment.mk s₁.endTime s₂.start :: middleCandidates (s₂ :: rest) := by
      simp [middleCandidates]
    rw [hunf, ih, hcand, List.filter_cons]
    by_cases h : cfg.MinSongLength ≤ s₂.start - s₁.endTime <;> simp [h]

theorem mem_middleSegments (cfg : Config) :
    ∀ l seg, seg ∈ middleSegments cfg l →
      ∃ l₁ a b l₂, l = l₁ ++ a :: b :: l₂ ∧
        seg = Segment.mk a.endTime b.start ∧
        cfg.MinSongLength ≤ b.start - a.endTime
  | [], seg => by intro h; simp [middleSegments] at h
  | [s], seg => by intro h; simp [middleSegments] at h
  | s₁ :: s₂ :: rest, seg => by
    intro hmem
    have hunf : middleSegments cfg (s₁ :: s₂ :: rest) =
        (if cfg.MinSongLength ≤ s₂.start - s₁.endTime
          then [Segment.mk s₁.endTime s₂.start] else [])
          ++ middleSegments cfg (s₂ :: rest) := rfl
    rw [hunf, List.mem_append] at hmem
    rcases hmem with hl | hr
    · by_cases h : cfg.MinSongLength ≤ s₂.start - s₁.endTime
      · rw [if_pos h] at hl
        simp only [List.mem_singleton] at hl
        exact ⟨[], s₁, s₂, rest, rfl, hl, h⟩
      · rw [if_neg h] at hl; simp at hl
    · obtain ⟨l₁, a, b, l₂, heq, hseg, hmin⟩ :=
        mem_middleSegments cfg (s₂ :: rest) seg hr
      exact ⟨s₁ :: l₁, a, b, l₂, by rw [List.cons_append, ← heq], hseg, hmin⟩

theorem middleSegments_start_mem (cfg : Config) (l : List Segment)
    (seg : Segment) (h : seg ∈ middleSegments cfg l) :
    ∃ a ∈ l, seg.start = a.endTime := by
  obtain ⟨l₁, a, b, l₂, heq, hseg, -⟩ := mem_middleSegments cfg l seg h
  exact ⟨a, by simp [heq], by rw [hseg]⟩

theorem mem_calc_min_length (silences : List Segment) (totalDuration : ℚ)
    (cfg : Config) :
    ∀ seg ∈ calculateNonSilentSegments silences totalDuration cfg,
      cfg.MinSongLength ≤ seg.endTime - seg.start := by
  cases silences with
  | nil => intro seg h; simp [calculateNonSilentSegments] at h
  | cons first rest =>
    intro seg hmem
    rw [calculateNonSilentSegments_cons, List.mem_append, List.mem_append]
      at hmem
    rcases hmem with (hl | hm) | ht
    · obtain ⟨rfl, hmin⟩ := mem_leadingSegments hl
      simpa using hmin
    · obtain ⟨l₁, a, b, l₂, -, rfl, hmin⟩ :=
        mem_middleSegments cfg _ seg hm
      simpa using hmin
    · obtain ⟨rfl, -, hmin⟩ := mem_trailingSegments ht
      simpa using hmin

theorem head_start_le_end_of_mem {first : Segment} {rest : List Segment}
    (hse : ∀ s ∈ first :: rest, s.start ≤ s.endTime)
    (hp : (first :: rest).Pairwise segLE) :
    ∀ a ∈ first :: rest, first.start ≤ a.endTime := by
  intro a ha
  rcases List.mem_cons.mp ha with rfl | ha
  · exact hse a (List.mem_cons_self _ _)
  · have h1 : first.endTime ≤ a.start := (List.pairwise_cons.mp hp).1 a ha
    have h2 := hse first (List.mem_cons_self _ _)
    have h3 := hse a (List.mem_cons_of_mem _ ha)
    exact le_trans h2 (le_trans h1 h3)

theorem end_le_getLast_end {l : List Segment} (h : l ≠ [])
    (hse : ∀ s ∈ l, s.start ≤ s.endTime) (hp : l.Pairwise segLE) :
    ∀ s ∈ l, s.endTime ≤ (l.getLast h).endTime := by
  intro s hs
  have hdecomp := List.dropLast_append_getLast h
  rw [← hdecomp] at hs hp
  rcases List.mem_append.mp hs with hs1 | hs2
  · have hcross : segLE s (l.getLast h) :=
      (List.pairwise_append.mp hp).2.2 s hs1 (l.getLast h) (by simp)
    have hlast := hse (l.getLast h) (List.getLast_mem h)
    exact le_trans hcross hlast
  · simp only [List.mem_singleton] at hs2
    rw [hs2]

theorem pairwise_middleSegments (cfg : Config) :
    ∀ l : List Segment, (∀ s ∈ l, s.start ≤ s.endTime) → l.Pairwise segLE →
      (middleSegments cfg l).Pairwise segLE
  | [], _, _ => by
    rw [show middleSegments cfg [] = [] from rfl]
    exact List.Pairwise.nil
  | [s], _, _ => by
    rw [show middleSegments cfg [s] = [] from rfl]
    exact List.Pairwise.nil
  | s₁ :: s₂ :: rest, hse, hp => by
    have hse₂ : ∀ s ∈ s₂ :: rest, s.start ≤ s.endTime :=
      fun s hs => hse s (List.mem_cons_of_mem _ hs)
    have hp₂ : (s₂ :: rest).Pairwise segLE := (List.pairwise_cons.mp hp).2
    have ih := pairwise_middleSegments cfg (s₂ :: rest) hse₂ hp₂
    have hunf : middleSegments cfg (s₁ :: s₂ :: rest) =
        (if cfg.MinSongLength ≤ s₂.start - s₁.endTime
          then [Segment.mk s₁.endTime s₂.start] else [])
          ++ middleSegments cfg (s₂ :: rest) := rfl
    rw [hunf, List.pairwise_append]
    refine ⟨?_, ih, ?_⟩
    · split <;> simp
    · intro x hx y hy
      obtain ⟨a, ha, hstart⟩ := middleSegments_start_mem cfg _ y hy
      have hx' : x = Segment.mk s₁.endTime s₂.start := by
        split at hx
        · simpa using hx
        · simp at hx
      show x.endTime ≤ y.start
      rw [hx', hstart]
      exact head_start_le_end_of_mem hse₂ hp₂ a ha

theorem calc_pairwise (silences : List Segment) (totalDuration : ℚ)
    (cfg : Config) (hse : ∀ s ∈ silences, s.start ≤ s.endTime)
    (hp : silences.Pairwise segLE) :
    (calculateNonSilentSegments silences totalDuration cfg).Pairwise segLE := by
  cases silences with
  | nil => simp [calculateNonSilentSegments]
  | cons first rest =>
    rw [calculateNonSilentSegments_cons, List.append_assoc,
      List.pairwise_append]
    have hne := List.cons_ne_nil first rest
    refine ⟨?_, ?_, ?_⟩
    · unfold leadingSegments; split <;> simp
    · rw [List.pairwise_append]
      refine ⟨pairwise_middleSegments cfg _ hse hp, ?_, ?_⟩
      · unfold trailingSegments; split <;> simp
      · intro x hx y hy
        obtain ⟨l₁, a, b, l₂, heq, hxe, -⟩ :=
          mem_middleSegments cfg _ x hx
        obtain ⟨hye, -, -⟩ := mem_trailingSegments hy
        have hb : b ∈ first :: rest := by simp [heq]
        show x.endTime ≤ y.start
        rw [hxe, hye]
        have h1 : b.start ≤ b.endTime := hse b hb
        have h2 := end_le_getLast_end hne hse hp b hb
        exact le_trans h1 h2
    · intro x hx y hy
      obtain ⟨hxe, -⟩ := mem_leadingSegments hx
      show x.endTime ≤ y.start
      rcases List.mem_append.mp hy with hym | hyt
      · obtain ⟨a, ha, hstart⟩ := middleSegments_start_mem cfg _ y hym
        rw [hxe, hstart]
        exact head_start_le_end_of_mem hse hp a ha
      · obtain ⟨hye, -, -⟩ := mem_trailingSegments hyt
        rw [hxe, hye]
        exact head_start_le_end_of_mem hse hp _ (List.getLast_mem hne)

theorem middleSegments_length (cfg : Config) :
    ∀ l : List Segment, (middleSegments cfg l).length ≤ l.length - 1
  | [] => by rw [show middleSegments cfg [] = [] from rfl]; simp
  | [s] => by rw [show middleSegments cfg [s] = [] from rfl]; simp
  | s₁ :: s₂ :: rest => by
    have ih := middleSegments_length cfg (s₂ :: rest)
    have hunf : middleSegments cfg (s₁ :: s₂ :: rest) =
        (if cfg.MinSongLength ≤ s₂.start - s₁.endTime
          then [Segment.mk s₁.endTime s₂.start] else [])
          ++ middleSegments cfg (s₂ :: rest) := rfl
    have hhead : (if cfg.MinSongLength ≤ s₂.start - s₁.endTime
        then [Segment.mk s₁.endTime s₂.start] else []).length ≤ 1 := by
      split <;> simp
    rw [hunf, List.length_append]
    simp only [List.length_cons] at ih ⊢
    omega

/-! ### Claims about the segment deriver -/

/-- Claim C1, amended: for a non-empty silence list the leading candidate
and the middle candidates are appended exactly when their length
`end - start` is at least `minSongLength` (so a length exactly equal to
`minSongLength` is retained and no error is raised); a negative-length
candidate always fails the filter and a zero-length candidate fails
whenever `minSongLength` is positive — but, contrary to the claim as
stated, a zero-length candidate passes the filter when
`minSongLength = 0`. -/
theorem claimC1_candidate_filter (cfg : Config) (totalDuration : ℚ)
    (first : Segment) (rest : List Segment) :
    (calculateNonSilentSegments (first :: rest) totalDuration cfg =
      (Segment.mk 0 first.start :: middleCandidates (first :: rest)).filter
          (fun c => decide (cfg.MinSongLength ≤ c.endTime - c.start))
        ++ trailingSegments cfg
            (((first :: rest).getLast (List.cons_ne_nil first rest)).endTime)
            totalDuration) ∧
    (first.start - 0 = cfg.MinSongLength →
      Segment.mk 0 first.start ∈
        calculateNonSilentSegments (first :: rest) totalDuration cfg) ∧
    (0 < cfg.MinSongLength →
      ∀ seg ∈ calculateNonSilentSegments (first :: rest) totalDuration cfg,
        seg.start < seg.endTime) := by
  refine ⟨?_, ?_, ?_⟩
  · rw [calculateNonSilentSegments_cons, middleSegments_eq_filter,
      List.filter_cons]
    by_cases h : cfg.MinSongLength ≤ first.start - 0
    · rw [sub_zero] at h; simp [leadingSegments, h]
    · rw [sub_zero] at h; simp [leadingSegments, h]
  · intro h
    rw [calculateNonSilentSegments_cons]
    refine List.mem_append_left _ (List.mem_append_left _ ?_)
    unfold leadingSegments
    rw [if_pos (le_of_eq h.symm)]
    simp
  · intro hpos seg hmem
    have := mem_calc_min_length _ _ _ seg hmem
    linarith

/-- Witness for claim C1: a leading candidate whose length is exactly
`minSongLength` (200 seconds, the default) is retained. -/
theorem claimC1_witness :
    Segment.mk 0 200 ∈
      calculateNonSilentSegments [Segment.mk 200 300] 400 defaultConfig := by
  apply (claimC1_candidate_filter defaultConfig 400 (Segment.mk 200 300) []).2.1
  norm_num [defaultConfig]

/-- Counterexample for claim C1 as stated: with `minSongLength = 0` the
zero-length middle candidate between the touching silences `[50,100)` and
`[100,150)` does NOT fail the filter — it is retained in the output. -/
theorem claimC1_counterexample :
    Segment.mk 100 100 ∈
      calculateNonSilentSegments [Segment.mk 50 100, Segment.mk 100 150] 500
        cfgZero ∧
    (Segment.mk 100 100).endTime - (Segment.mk 100 100).start = 0 := by
  constructor
  · norm_num [calculateNonSilentSegments, leadingSegments, middleSegments,
      trailingSegments, cfgZero, defaultConfig, List.getLast]
  · norm_num

/-- Claim C2: the trailing candidate is appended iff its length is both
strictly greater than `0.1` and at least `minSongLength`; a trailing length
of exactly `0.1` is rejected while `0.1000001` with `minSongLength = 0` is
accepted; and no epsilon guard applies to the leading or middle
candidates. -/
theorem claimC2_trailing_epsilon :
    (∀ (cfg : Config) (totalDuration : ℚ) (first : Segment)
        (rest : List Segment),
      ((0.1 : ℚ) < totalDuration -
            ((first :: rest).getLast (List.cons_ne_nil first rest)).endTime ∧
          cfg.MinSongLength ≤ totalDuration -
            ((first :: rest).getLast (List.cons_ne_nil first rest)).endTime →
        calculateNonSilentSegments (first :: rest) totalDuration cfg =
          leadingSegments cfg first ++ middleSegments cfg (first :: rest)
            ++ [Segment.mk
                ((first :: rest).getLast (List.cons_ne_nil first rest)).endTime
                totalDuration]) ∧
      (¬ ((0.1 : ℚ) < totalDuration -
            ((first :: rest).getLast (List.cons_ne_nil first rest)).endTime ∧
          cfg.MinSongLength ≤ totalDuration -
            ((first :: rest).getLast (List.cons_ne_nil first rest)).endTime) →
        calculateNonSilentSegments (first :: rest) totalDuration cfg =
          leadingSegments cfg first ++ middleSegments cfg (first :: rest))) ∧
    calculateNonSilentSegments [Segment.mk 200 250] 250.1 cfgZero =
      [Segment.mk 0 200] ∧
    calculateNonSilentSegments [Segment.mk 200 250] 250.1000001 cfgZero =
      [Segment.mk 0 200, Segment.mk 250 250.1000001] ∧
    (∀ (cfg : Config) (totalDuration : ℚ) (first : Segment)
        (rest : List Segment),
      cfg.MinSongLength ≤ first.start - 0 →
      Segment.mk 0 first.start ∈
        calculateNonSilentSegments (first :: rest) totalDuration cfg) ∧
    (∀ (cfg : Config) (totalDuration : ℚ) (s₁ s₂ : Segment)
        (rest : List Segment),
      cfg.MinSongLength ≤ s₂.start - s₁.endTime →
      Segment.mk s₁.endTime s₂.start ∈
        calculateNonSilentSegments (s₁ :: s₂ :: rest) totalDuration cfg) := by
  refine ⟨fun cfg td first rest => ⟨?_, ?_⟩, ?_, ?_, ?_, ?_⟩
  · intro h
    rw [calculateNonSilentSegments_cons]
    unfold trailingSegments
    rw [if_pos h]
  · intro h
    rw [calculateNonSilentSegments_cons]
    unfold trailingSegments
    rw [if_neg h, List.append_nil]
  · norm_num [calculateNonSilentSegments, leadingSegments, middleSegments,
      trailingSegments, cfgZero, defaultConfig, List.getLast]
  · norm_num [calculateNonSilentSegments, leadingSegments, middleSegments,
      trailingSegments, cfgZero, defaultConfig, List.getLast]
  · intro cfg td first rest h
    rw [calculateNonSilentSegments_cons]
    refine List.mem_append_left _ (List.mem_append_left _ ?_)
    unfold leadingSegments
    rw [if_pos h]
    simp
  · intro cfg td s₁ s₂ rest h
    rw [calculateNonSilentSegments_cons]
    refine List.mem_append_left _ (List.mem_append_right _ ?_)
    have hunf : middleSegments cfg (s₁ :: s₂ :: rest) =
        (if cfg.MinSongLength ≤ s₂.start - s₁.endTime
          then [Segment.mk s₁.endTime s₂.start] else [])
          ++ middleSegments cfg (s₂ :: rest) := rfl
    rw [hunf, if_pos h]
    exact List.mem_append_left _ (by simp)

/-- Witness for claim C2: a trailing candidate of length `150 > 0.1` with
`minSongLength = 0` is appended after the leading and middle parts. -/
theorem claimC2_witness :
    calculateNonSilentSegments [Segment.mk 200 250] 400 cfgZero =
      leadingSegments cfgZero (Segment.mk 200 250)
        ++ middleSegments cfgZero [Segment.mk 200 250]
        ++ [Segment.mk
            (([Segment.mk 200 250].getLast
              (List.cons_ne_nil (Segment.mk 200 250) [])).endTime) 400] := by
  apply (claimC2_trailing_epsilon.1 cfgZero 400 (Segment.mk 200 250) []).1
  constructor <;> norm_num [List.getLast, cfgZero, defaultConfig]

/-- Claim C3: on an empty silence list the deriver returns the empty list,
for every total duration and every configuration. -/
theorem claimC3_empty_silences (totalDuration : ℚ) (cfg : Config) :
    calculateNonSilentSegments [] totalDuration cfg = [] := rfl

/-- Claim C4, amended: when every silence interval has `start ≤ end` and
the silences are ascending and pairwise non-overlapping, the output is
ordered ascending; unconditionally, every returned interval has length at
least `minSongLength`, a trailing interval additionally has length greater
than `0.1`, and the output has at most `count(silences) + 1` entries.  The
ordering conjunct does not hold for malformed (unsorted) silence input,
which the spec elsewhere declares a precondition. -/
theorem claimC4_invariants (silences : List Segment) (totalDuration : ℚ)
    (cfg : Config) :
    ((∀ s ∈ silences, s.start ≤ s.endTime) → silences.Pairwise segLE →
      (calculateNonSilentSegments silences totalDuration cfg).Pairwise
        segLE) ∧
    (∀ seg ∈ calculateNonSilentSegments silences totalDuration cfg,
      cfg.MinSongLength ≤ seg.endTime - seg.start) ∧
    (∀ lastSilenceEnd : ℚ,
      ∀ seg ∈ trailingSegments cfg lastSilenceEnd totalDuration,
        (0.1 : ℚ) < seg.endTime - seg.start) ∧
    (calculateNonSilentSegments silences totalDuration cfg).length ≤
      silences.length + 1 := by
  refine ⟨fun hse hp => calc_pairwise silences totalDuration cfg hse hp,
    mem_calc_min_length silences totalDuration cfg, ?_, ?_⟩
  · intro lastSilenceEnd seg hmem
    obtain ⟨rfl, h1, -⟩ := mem_trailingSegments hmem
    simpa using h1
  · cases silences with
    | nil => simp [calculateNonSilentSegments]
    | cons first rest =>
      rw [calculateNonSilentSegments_cons]
      have h1 : (leadingSegments cfg first).length ≤ 1 := by
        unfold leadingSegments; split <;> simp
      have h2 := middleSegments_length cfg (first :: rest)
      have h3 : (trailingSegments cfg
          (((first :: rest).getLast (List.cons_ne_nil first rest)).endTime)
          totalDuration).length ≤ 1 := by
        unfold trailingSegments; split <;> simp
      simp only [List.length_append, List.length_cons] at h2 ⊢
      omega

/-- Witness for claim C4: on a well-formed input the output is ordered
ascending. -/
theorem claimC4_witness :
    List.Pairwise segLE
      (calculateNonSilentSegments [Segment.mk 180 190] 300
        { defaultConfig with MinSongLength := 10 }) := by
  apply (claimC4_invariants [Segment.mk 180 190] 300
    { defaultConfig with MinSongLength := 10 }).1
  · intro s hs
    simp only [List.mem_singleton] at hs
    rw [hs]
    norm_num
  · simp

/-- Counterexample for claim C4 as stated ("for all inputs"): on an
unsorted silence list the output is not ordered ascending. -/
theorem claimC4_counterexample :
    calculateNonSilentSegments
        [Segment.mk 0 500, Segment.mk 600 610, Segment.mk 0 10,
          Segment.mk 100 110] 400 cfgZero
      = [Segment.mk 0 0, Segment.mk 500 600, Segment.mk 10 100,
          Segment.mk 110 400] ∧
    ¬ List.Pairwise segLE
        [Segment.mk 0 0, Segment.mk 500 600, Segment.mk 10 100,
          Segment.mk 110 400] := by
  constructor
  · norm_num [calculateNonSilentSegments, leadingSegments, middleSegments,
      trailingSegments, cfgZero, defaultConfig, List.getLast]
  · intro h
    have h1 : segLE (Segment.mk 500 600) (Segment.mk 10 100) :=
      (List.pairwise_cons.mp (List.pairwise_cons.mp h).2).1
        (Segment.mk 10 100) (by simp)
    have h2 : (600 : ℚ) ≤ 10 := h1
    norm_num at h2

/-- Claim C5: with an empty silence list, the pipeline's segment list used
for export is the single synthetic segment `[0, totalDuration)` exactly
when `totalDuration ≥ minSongLength`, and is empty otherwise. -/
theorem claimC5_no_silence_policy (totalDuration : ℚ) (cfg : Config) :
    (mainSongSegments [] totalDuration cfg =
        [Segment.mk 0 totalDuration] ↔
      cfg.MinSongLength ≤ totalDuration) ∧
    (totalDuration < cfg.MinSongLength →
      mainSongSegments [] totalDuration cfg = []) := by
  constructor
  · constructor
    · intro h
      by_contra hlt
      simp [mainSongSegments, calculateNonSilentSegments, hlt] at h
    · intro h
      simp [mainSongSegments, h]
  · intro h
    simp [mainSongSegments, calculateNonSilentSegments, not_le.mpr h]

/-- Witness for claim C5: a 300-second file with no silence and the default
200-second minimum becomes one whole-file song; a 100-second file yields
nothing. -/
theorem claimC5_witness :
    mainSongSegments [] 300 defaultConfig = [Segment.mk 0 300] ∧
    mainSongSegments [] 100 defaultConfig = [] := by
  refine ⟨(claimC5_no_silence_policy 300 defaultConfig).1.mpr ?_,
    (claimC5_no_silence_policy 100 defaultConfig).2 ?_⟩ <;>
    norm_num [defaultConfig]

/-! ### Claims about the configuration merge -/

/-- Claim C6: in the defaults → config file → CLI flags merge, any flag
explicitly set on the command line determines the final value of its
setting regardless of the config file's value; in particular an explicit
`-upload=false` overrides a file-set `upload_to_drive` of `true`. -/
theorem claimC6_cli_flags_override :
    (∀ fc fl, fc.UploadToDrive = true → fl.upload = some false →
      (loadConfig (some fc) fl).UploadToDrive = false) ∧
    (∀ fc fl v, fl.input = some v →
      (loadConfig (some fc) fl).InputFile = v) ∧
    (∀ fc fl v, fl.duration = some v →
      (loadConfig (some fc) fl).MinSilenceDur = v) ∧
    (∀ fc fl v, fl.threshold = some v →
      (loadConfig (some fc) fl).SilenceThreshold = v) ∧
    (∀ fc fl v, fl.minsonglength = some v →
      (loadConfig (some fc) fl).MinSongLength = v) ∧
    (∀ fc fl v, fl.prefixFlag = some v →
      (loadConfig (some fc) fl).OutputPrefixName = v) ∧
    (∀ fc fl v, fl.output = some v →
      (loadConfig (some fc) fl).OutputDir = v) ∧
    (∀ fc fl v, fl.upload = some v →
      (loadConfig (some fc) fl).UploadToDrive = v) ∧
    (∀ fc fl v, fl.remote = some v →
      (loadConfig (some fc) fl).RcloneRemote = v) ∧
    (∀ fc fl v, fl.subfolder = some v →
      (loadConfig (some fc) fl).DriveSubfolder = v) ∧
    (∀ fc fl v, fl.setlist = some v →
      (loadConfig (some fc) fl).SetlistFile = v) := by
  refine ⟨fun fc fl _ h => by simp [loadConfig, applyCliFlags, h], ?_, ?_,
    ?_, ?_, ?_, ?_, ?_, ?_, ?_, ?_⟩ <;>
    exact fun fc fl v h => by simp [loadConfig, applyCliFlags, h]

/-- Witness for claim C6: an explicit `-upload=false` wins over a
file-set `upload_to_drive = true`. -/
theorem claimC6_witness :
    (loadConfig (some { defaultConfig with UploadToDrive := true })
      { noFlags with upload := some false }).UploadToDrive = false :=
  claimC6_cli_flags_override.1 _ _ rfl rfl

/-- Claim C10: a Go zero value for a field in the parsed config file is
indistinguishable from an absent key and leaves the default in effect:
`min_song_length = 0` or `upload_to_drive = false` in the file cannot
override the defaults, and only an explicit CLI flag can set those
settings to `0` or `false`. -/
theorem claimC10_file_zero_ignored :
    (∀ fc fl, fc.MinSongLength = 0 → fl.minsonglength = none →
      (loadConfig (some fc) fl).MinSongLength =
        defaultConfig.MinSongLength) ∧
    (∀ fc fl, fc.UploadToDrive = false → fl.upload = none →
      (loadConfig (some fc) fl).UploadToDrive =
        defaultConfig.UploadToDrive) ∧
    (∀ fc fl, fl.minsonglength = none →
      (loadConfig (some fc) fl).MinSongLength ≠ 0) ∧
    (∀ fc fl, fl.upload = none → fc.UploadToDrive = false →
      (loadConfig (some fc) fl).UploadToDrive =
        defaultConfig.UploadToDrive) ∧
    (∀ fc fl, fl.minsonglength = some 0 →
      (loadConfig (some fc) fl).MinSongLength = 0) ∧
    (∀ fc fl, fl.upload = some false →
      (loadConfig (some fc) fl).UploadToDrive = false) := by
  refine ⟨?_, ?_, ?_, ?_, ?_, ?_⟩
  · intro fc fl h hf
    simp [loadConfig, applyCliFlags, applyFileConfig, h, hf]
  · intro fc fl h hf
    simp [loadConfig, applyCliFlags, applyFileConfig, h, hf]
  · intro fc fl hf
    simp only [loadConfig, applyCliFlags, applyFileConfig, hf,
      Option.getD_none]
    by_cases hz : fc.MinSongLength = 0
    · simp [hz, defaultConfig]
    · simp [hz]
  · intro fc fl hf h
    simp [loadConfig, applyCliFlags, applyFileConfig, h, hf]
  · intro fc fl hf
    simp [loadConfig, applyCliFlags, hf]
  · intro fc fl hf
    simp [loadConfig, applyCliFlags, hf]

/-- Witness for claim C10: a file whose `min_song_length` is `0` leaves
the default of 200 seconds in effect. -/
theorem claimC10_witness :
    (loadConfig (some { defaultConfig with MinSongLength := 0 })
      noFlags).MinSongLength = defaultConfig.MinSongLength :=
  claimC10_file_zero_ignored.1 _ _ rfl rfl

/-! ### Helper lemmas about the rename loop -/

theorem renameLoop_length (songTitles : List String) (renameOk : ℕ → Bool) :
    ∀ (i : ℕ) (files : List String),
      (renameLoop songTitles renameOk i files).length = files.length
  | _, [] => rfl
  | i, f :: fs => by
    simp [renameLoop, renameLoop_length songTitles renameOk (i + 1) fs]

theorem renameLoop_getElem? (songTitles : List String)
    (renameOk : ℕ → Bool) :
    ∀ (i : ℕ) (files : List String) (n : ℕ),
      (renameLoop songTitles renameOk i files)[n]? =
        (files[n]?).map (renameOne songTitles renameOk (i + n))
  | _, [], n => by simp [renameLoop]
  | i, f :: fs, 0 => by simp [renameLoop]
  | i, f :: fs, n + 1 => by
    have ih := renameLoop_getElem? songTitles renameOk (i + 1) fs n
    simp only [renameLoop, List.getElem?_cons_succ, ih]
    have harith : i + 1 + n = i + (n + 1) := by omega
    rw [harith]

/-! ### Claims about the rename step -/

/-- Claim C7: the rename step pairs exported files and setlist titles
positionally — file `i` receives title `i` for `i` below the minimum of the
two counts, files beyond the number of titles keep their original names,
titles beyond the number of files are ignored (the result at each index
does not depend on them), and a rename failure at one index neither changes
that file's name nor affects any other index. -/
theorem claimC7_positional_rename :
    (∀ (files titles : List String) (ok : ℕ → Bool),
      (renameFilesFromSetlist files titles ok).length = files.length) ∧
    (∀ (files titles : List String) (ok : ℕ → Bool) (i : ℕ) file title,
      files[i]? = some file → titles[i]? = some title → ok i = true →
      (renameFilesFromSetlist files titles ok)[i]? =
        some (filepathJoin (filepathDir file)
          (newFileName i title (filepathExt file)))) ∧
    (∀ (files titles : List String) (ok : ℕ → Bool) (i : ℕ) file,
      files[i]? = some file → titles.length ≤ i →
      (renameFilesFromSetlist files titles ok)[i]? = some file) ∧
    (∀ (files titles : List String) (ok : ℕ → Bool) (i : ℕ) file,
      files[i]? = some file → ok i = false →
      (renameFilesFromSetlist files titles ok)[i]? = some file) ∧
    (∀ (files titles : List String) (ok₁ ok₂ : ℕ → Bool) (i : ℕ),
      ok₁ i = ok₂ i →
      (renameFilesFromSetlist files titles ok₁)[i]? =
        (renameFilesFromSetlist files titles ok₂)[i]?) := by
  refine ⟨?_, ?_, ?_, ?_, ?_⟩
  · intro files titles ok
    exact renameLoop_length titles ok 0 files
  · intro files titles ok i file title hf ht hok
    rw [renameFilesFromSetlist, renameLoop_getElem?, hf, Nat.zero_add]
    simp [renameOne, ht, hok]
  · intro files titles ok i file hf hlen
    rw [renameFilesFromSetlist, renameLoop_getElem?, hf, Nat.zero_add]
    have ht : titles[i]? = none := by
      rw [List.getElem?_eq_none_iff]
      exact hlen
    simp [renameOne, ht]
  · intro files titles ok i file hf hok
    rw [renameFilesFromSetlist, renameLoop_getElem?, hf, Nat.zero_add]
    cases ht : titles[i]? <;> simp [renameOne, ht, hok]
  · intro files titles ok₁ ok₂ i hok
    rw [renameFilesFromSetlist, renameFilesFromSetlist,
      renameLoop_getElem?, renameLoop_getElem?, Nat.zero_add]
    cases hf : files[i]? with
    | none => simp
    | some file =>
      cases ht : titles[i]? <;> simp [renameOne, ht, hok]

/-- Witness for claim C7: with two exported files and a one-title setlist,
file 0 is renamed and file 1 keeps its original name. -/
theorem claimC7_witness :
    (renameFilesFromSetlist ["output/Song_01.mp4", "output/Song_02.mp4"]
        ["Intro Jam"] (fun _ => true))[0]? =
      some (filepathJoin (filepathDir "output/Song_01.mp4")
        (newFileName 0 "Intro Jam" (filepathExt "output/Song_01.mp4"))) ∧
    (renameFilesFromSetlist ["output/Song_01.mp4", "output/Song_02.mp4"]
        ["Intro Jam"] (fun _ => true))[1]? =
      some "output/Song_02.mp4" := by
  constructor
  · exact claimC7_positional_rename.2.1 _ _ _ 0 _ _ rfl rfl rfl
  · exact claimC7_positional_rename.2.2.1 _ _ _ 1 _ rfl (by norm_num)

/-- Claim C8: the sanitizer trims surrounding whitespace, removes every
character outside letters, digits, whitespace, hyphen and underscore,
replaces spaces with underscores, and maps an empty result to the fixed
placeholder (it agrees with the spec-worded formulation and never returns
an empty string); the renamed file's name is
`"{index:2digits} - {sanitizedTitle}{originalExtension}"` with a 1-based
index. -/
theorem claimC8_sanitize_and_format :
    (∀ name, sanitizeFilename name = sanitizeFilenameSpec name) ∧
    (∀ name, sanitizeFilename name ≠ "") ∧
    (∀ (files titles : List String) (ok : ℕ → Bool) (i : ℕ) file title,
      files[i]? = some file → titles[i]? = some title → ok i = true →
      (renameFilesFromSetlist files titles ok)[i]? =
        some (filepathJoin (filepathDir file)
          (pad2 (i + 1) ++ " - " ++ sanitizeFilename title
            ++ filepathExt file))) := by
  refine ⟨?_, ?_, ?_⟩
  · intro name
    have hpred : (fun c => isWordChar c || isGoSpace c || c = '-') =
        (fun c => c.isAlpha || c.isDigit || isGoSpace c || c = '-'
          || c = '_') := by
      funext c
      cases h1 : c.isAlpha <;> cases h2 : c.isDigit <;>
        cases h3 : isGoSpace c <;>
        simp [isWordChar, Char.isAlphanum, h1, h2, h3, Bool.or_comm]
    rw [sanitizeFilename, sanitizeFilenameSpec, hpred]
  · intro name
    rw [sanitizeFilename]
    split
    · simp
    · assumption
  · intro files titles ok i file title hf ht hok
    rw [renameFilesFromSetlist, renameLoop_getElem?, hf, Nat.zero_add]
    simp [renameOne, ht, hok, newFileName]

/-- Witness for claim C8: the title `"My Song!"` at index 0 yields the file
name `01 - My_Song` plus the original extension in the original
directory. -/
theorem claimC8_witness :
    (renameFilesFromSetlist ["output/Song_01.mp4"] ["My Song!"]
        (fun _ => true))[0]? =
      some (filepathJoin (filepathDir "output/Song_01.mp4")
        (pad2 1 ++ " - " ++ sanitizeFilename "My Song!"
          ++ filepathExt "output/Song_01.mp4")) :=
  claimC8_sanitize_and_format.2.2 _ _ _ 0 _ _ rfl rfl rfl

/-! ### Claim C9: derived segments avoid the silences -/

/-- Claim C9: when the silence list is ascending and pairwise
non-overlapping with every interval inside `[0, totalDuration]`, every
interval returned by the deriver lies within `[0, totalDuration]` and is
disjoint from every input silence interval. -/
theorem claimC9_within_and_disjoint (silences : List Segment)
    (totalDuration : ℚ) (cfg : Config)
    (hbounds : ∀ s ∈ silences,
      0 ≤ s.start ∧ s.start ≤ s.endTime ∧ s.endTime ≤ totalDuration)
    (hp : silences.Pairwise segLE) :
    ∀ seg ∈ calculateNonSilentSegments silences totalDuration cfg,
      (0 ≤ seg.start ∧ seg.endTime ≤ totalDuration) ∧
      ∀ sil ∈ silences,
        seg.endTime ≤ sil.start ∨ sil.endTime ≤ seg.start := by
  cases silences with
  | nil => intro seg h; simp [calculateNonSilentSegments] at h
  | cons first rest =>
    have hse : ∀ s ∈ first :: rest, s.start ≤ s.endTime :=
      fun s hs => (hbounds s hs).2.1
    have hne := List.cons_ne_nil first rest
    intro seg hmem
    rw [calculateNonSilentSegments_cons, List.mem_append, List.mem_append]
      at hmem
    rcases hmem with (hl | hm) | ht
    · obtain ⟨rfl, -⟩ := mem_leadingSegments hl
      have hfirst := hbounds first (List.mem_cons_self _ _)
      refine ⟨⟨by norm_num, ?_⟩, ?_⟩
      · simpa using le_trans hfirst.2.1 hfirst.2.2
      · intro sil hsil
        left
        show first.start ≤ sil.start
        rcases List.mem_cons.mp hsil with h | h
        · rw [h]
        · have h1 : first.endTime ≤ sil.start :=
            (List.pairwise_cons.mp hp).1 sil h
          exact le_trans hfirst.2.1 h1
    · obtain ⟨l₁, a, b, l₂, heq, rfl, -⟩ := mem_middleSegments cfg _ seg hm
      have ha : a ∈ first :: rest := by simp [heq]
      have hb : b ∈ first :: rest := by simp [heq]
      have hba := hbounds a ha
      have hbb := hbounds b hb
      refine ⟨⟨?_, ?_⟩, ?_⟩
      · simpa using le_trans hba.1 hba.2.1
      · simpa using le_trans hbb.2.1 hbb.2.2
      · intro sil hsil
        rw [heq] at hp hsil
        rw [List.mem_append] at hsil
        have hpapp := List.pairwise_append.mp hp
        rcases hsil with hsil1 | hsil2
        · right
          have hcr : sil.endTime ≤ a.start :=
            hpapp.2.2 sil hsil1 a (by simp)
          show sil.endTime ≤ a.endTime
          exact le_trans hcr (hse a ha)
        · rcases List.mem_cons.mp hsil2 with h | hsil3
          · right
            rw [h]
          · rcases List.mem_cons.mp hsil3 with h | hsil4
            · left
              rw [h]
            · left
              have hbsil : b.endTime ≤ sil.start :=
                (List.pairwise_cons.mp
                  (List.pairwise_cons.mp hpapp.2.1).2).1 sil hsil4
              show b.start ≤ sil.start
              exact le_trans (hse b hb) hbsil
    · obtain ⟨rfl, -, -⟩ := mem_trailingSegments ht
      have hlast := hbounds _ (List.getLast_mem hne)
      refine ⟨⟨?_, by simp⟩, ?_⟩
      · simpa using le_trans hlast.1 hlast.2.1
      · intro sil hsil
        right
        have := end_le_getLast_end hne hse hp sil hsil
        simpa using this

/-- Witness for claim C9: on a single well-formed silence the leading
derived segment stays inside the file and avoids the silence. -/
theorem claimC9_witness :
    ((0 : ℚ) ≤ (Segment.mk (0 : ℚ) 180).start ∧
      (Segment.mk (0 : ℚ) 180).endTime ≤ 300) ∧
    ((Segment.mk (0 : ℚ) 180).endTime ≤ (Segment.mk (180 : ℚ) 190).start ∨
      (Segment.mk (180 : ℚ) 190).endTime ≤ (Segment.mk (0 : ℚ) 180).start) := by
  have h := claimC9_within_and_disjoint [Segment.mk 180 190] 300
    { defaultConfig with MinSongLength := 10 }
    (by
      intro s hs
      simp only [List.mem_singleton] at hs
      rw [hs]
      norm_num)
    (by simp)
    (Segment.mk 0 180)
    (by
      norm_num [calculateNonSilentSegments, leadingSegments, middleSegments,
        trailingSegments, List.getLast])
  exact ⟨h.1, h.2 _ (by simp)⟩
